import Mathlib

/-!
# Verification of the Paginated Registry Fetcher (`query_ctgov_api`)

Shallow embedding of `src/utils/DHTermSearch.py`'s `query_ctgov_api` and the
claims of the specification about it.

Modelling decisions (all traceable to the Python source):

* A dataframe cell is a JSON-derived Python value as it occurs in this code
  path: a string, a number (the server's `Rank` field is an integer), a list
  of strings (multi-valued study fields), or the missing-value marker
  `np.nan` (`Cell.nan`).
* A `pd.DataFrame` is a column-name list plus a list of rows
  (each row a list of cells, aligned with the columns).  All pages of one
  query return the same requested fields, so the common column list is a
  parameter of the embedded function; `pd.concat` on frames with identical
  columns is row append.
* `requests.get` + `r.json()` + the `StudyFieldsResponse` envelope are
  modelled by a `server : Nat → Nat → PageResponse` argument mapping the
  `(min_rnk, max_rnk)` window of a request to the decoded response.
  Transport and JSON-shape failures are not modelled (the source does not
  handle them either).
* The Python function returns `None` (empty query), a plain string (the two
  sentinel messages), or a dataframe; `del clinical_df["Rank"]` raises
  `KeyError` when no such column exists.  `PyResult` has one constructor for
  each of these outcomes.
* `df.replace(old, new)` in pandas without `regex=True` replaces only cells
  *equal* to `old`, it does not substitute inside strings; this is modelled
  cell-exactly by `replaceCell`.
* `DataFrame.drop_duplicates()` keeps the first occurrence of each row;
  `dropDups` below does the same.
* The second positional parameter of the embedded function tracks the list
  of `(min_rnk, max_rnk)` windows actually sent to the server, so that
  "issues no network request" and the page-window claims are statable.
* `verbose`, `study_url` and `search_field` do not affect any modelled
  behaviour (they only alter the transported URL/params) and are omitted.
-/

namespace DHTermSearch

/-- A dataframe cell: a Python value occurring in this code path. -/
inductive Cell where
  | str (s : String)
  | num (n : Int)
  | lst (l : List String)
  | nan
deriving DecidableEq, Repr

/-- A pandas dataframe: column names plus rows of cells aligned with them. -/
structure DF where
  cols : List String
  rows : List (List Cell)
deriving DecidableEq, Repr

/-- The decoded `StudyFieldsResponse` of one page request. -/
structure PageResponse where
  nReturned : Nat
  nFound : Nat
  rows : List (List Cell)
deriving DecidableEq, Repr

/-- The Python return value of `query_ctgov_api`: `None`, a sentinel string,
a dataframe, or the uncaught `KeyError` from `del clinical_df["Rank"]`. -/
inductive PyResult where
  | none
  | str (s : String)
  | df (d : DF)
  | keyError
deriving DecidableEq, Repr

/-- Helper for `dropDups`: keep elements not seen before, front to back. -/
def dropDupsAux {α : Type} [DecidableEq α] (seen : List α) : List α → List α
  | [] => []
  | x :: xs =>
    if x ∈ seen then dropDupsAux seen xs
    else x :: dropDupsAux (x :: seen) xs

/-- Model of pandas `drop_duplicates`: keep the first occurrence of each row. -/
def dropDups {α : Type} [DecidableEq α] (l : List α) : List α :=
  dropDupsAux [] l

/-- Model of `df.replace(old, new)` acting on one cell: exact-value match only. -/
def replaceCell (old new c : Cell) : Cell :=
  if c = old then new else c

/-- One `df.replace(old, new)` pass over the whole frame (line 92-94, 96). -/
def dfReplace (old new : Cell) (d : DF) : DF :=
  ⟨d.cols, d.rows.map (fun row => row.map (replaceCell old new))⟩

/-- Model of `df.applymap(f)`: apply `f` to every cell (line 95). -/
def dfApplymap (f : Cell → Cell) (d : DF) : DF :=
  ⟨d.cols, d.rows.map (fun row => row.map f)⟩

/-- The lambda of line 95: `"\t".join(x) if type(x)==list else x`. -/
def joinIfList (c : Cell) : Cell :=
  match c with
  | .lst l => .str (String.intercalate "\t" l)
  | c => c

/-- Model of `del clinical_df["Rank"]` (line 91): remove the column, or fail with
`KeyError` when it is absent. -/
def delCol (name : String) (d : DF) : Option DF :=
  if name ∈ d.cols then
    some ⟨d.cols.eraseIdx (d.cols.indexOf name),
          d.rows.map (fun row => row.eraseIdx (d.cols.indexOf name))⟩
  else
    Option.none

/-- Lines 91-100 of the source: drop `Rank`, the two-pass value replacement,
list flattening, and duplicate removal, in source order. -/
def postprocess (d : DF) : Option DF :=
  (delCol "Rank" d).map (fun d1 =>
    let d2 := dfReplace .nan (.str "") d1
    let d3 := dfReplace (.str "\t") (.str " ") d2
    let d4 := dfReplace (.str "\n") (.str " ") d3
    let d5 := dfApplymap joinIfList d4
    let d6 := dfReplace .nan (.str "") d5
    ⟨d6.cols, dropDups d6.rows⟩)

/-- The composition of the per-cell transformations of lines 92-96, in
source order (nan→"", "\t"→" ", "\n"→" ", list→tab-join, nan→""). -/
def normCell (c : Cell) : Cell :=
  replaceCell .nan (.str "")
    (joinIfList
      (replaceCell (.str "\n") (.str " ")
        (replaceCell (.str "\t") (.str " ")
          (replaceCell .nan (.str "") c))))

/-- Lines 60-61: `if n_lim is not None: n_total = min(n_total, n_lim)`. -/
def clipTotal (found : Nat) : Option Nat → Nat
  | some l => min found l
  | Option.none => found

/-- Fuel-indexed unfolding of the `while` loop of lines 63-84.  The fuel
only bounds the recursion depth; `fetchLoop` below passes enough fuel that
it never runs out (the loop gains at least one rank per iteration). -/
def fetchLoopF (server : Nat → Nat → PageResponse) :
    Nat → Nat → Nat → Nat → List (Nat × Nat) × List (List Cell)
  | 0, _, _, _ => ([], [])
  | fuel + 1, n_total, curr_min, curr_max =>
    if n_total > curr_max then
      ((curr_min + 999, min n_total (curr_max + 999)) ::
          (fetchLoopF server fuel n_total (curr_min + 999)
            (min n_total (curr_max + 999))).1,
        (if 0 < (server (curr_min + 999) (min n_total (curr_max + 999))).nReturned
          then (server (curr_min + 999) (min n_total (curr_max + 999))).rows
          else []) ++
          (fetchLoopF server fuel n_total (curr_min + 999)
            (min n_total (curr_max + 999))).2)
    else ([], [])

/-- The `while n_total > curr_max` loop of lines 63-84.  Returns the list of
`(min_rnk, max_rnk)` windows requested and the accumulated appended rows
(a page contributes rows only when its `NStudiesReturned` is positive).
`fetchLoop_eq` below shows it satisfies exactly the loop recurrence. -/
def fetchLoop (server : Nat → Nat → PageResponse)
    (n_total curr_min curr_max : Nat) :
    List (Nat × Nat) × List (List Cell) :=
  fetchLoopF server (n_total - curr_max) n_total curr_min curr_max

/-- Model of `query_ctgov_api` of `src/utils/DHTermSearch.py`.  The second component
of the result is the list of request windows issued to the server. -/
def query_ctgov_api (query : String) (return_fields : List String)
    (n_lim : Option Nat) (cols : List String)
    (server : Nat → Nat → PageResponse) : PyResult × List (Nat × Nat) :=
  if query.length = 0 then (.none, [])
  else if return_fields.length > 20 then
    (.str "Too many search results to return! Max 20", [])
  else
    if 0 < (server 1 1000).nReturned then
      match postprocess ⟨cols, (server 1 1000).rows ++
          (fetchLoop server (clipTotal (server 1 1000).nFound n_lim) 1 1000).2⟩ with
      | some d =>
          (.df d, (1, 1000) ::
            (fetchLoop server (clipTotal (server 1 1000).nFound n_lim) 1 1000).1)
      | Option.none =>
          (.keyError, (1, 1000) ::
            (fetchLoop server (clipTotal (server 1 1000).nFound n_lim) 1 1000).1)
    else
      (.str "No studies found", [(1, 1000)])

/-- The rows a registry endpoint consistent with a rank-indexed study
database serves for the inclusive window `[a, b]`: the studies at ranks
`a, …, min b N` (`N` = total number of matching studies). -/
def pageRows (N : Nat) (f : Nat → List Cell) (a b : Nat) : List (List Cell) :=
  if a ≤ min b N then (List.range' a (min b N + 1 - a)).map f else []

/-- A registry server consistent with a study database: rank `r` holds the
row `Rank = r` followed by the study fields `studies r`. -/
def ctgovServer (N : Nat) (studies : Nat → List Cell) : Nat → Nat → PageResponse :=
  fun a b =>
    { nReturned := (pageRows N (fun r => Cell.num r :: studies r) a b).length,
      nFound := N,
      rows := pageRows N (fun r => Cell.num r :: studies r) a b }

/-- A server that reports matches but serves no row data; used to exercise
the window arithmetic alone. -/
def constServer (found : Nat) : Nat → Nat → PageResponse :=
  fun _ _ => ⟨1, found, []⟩

/-- A server with no matching studies. -/
def emptyServer : Nat → Nat → PageResponse :=
  fun _ _ => ⟨0, 0, []⟩

/-- A server whose first page already holds two studies; with `n_lim = 1`
the run still returns both rows (pages are never truncated to the limit). -/
def overshootServer : Nat → Nat → PageResponse :=
  fun _ _ => ⟨2, 2, [[Cell.num 1, Cell.str "a"], [Cell.num 2, Cell.str "b"]]⟩

/-- A server whose single study row holds an empty list-valued cell. -/
def emptyListServer : Nat → Nat → PageResponse :=
  fun _ _ => ⟨1, 1, [[Cell.num 1, Cell.lst []]]⟩

/-- A server whose single study row holds a two-element list-valued cell. -/
def listCellServer : Nat → Nat → PageResponse :=
  fun _ _ => ⟨1, 1, [[Cell.num 1, Cell.lst ["a", "b"]]]⟩

/-- A server whose single study row holds a missing value. -/
def nanServer : Nat → Nat → PageResponse :=
  fun _ _ => ⟨1, 1, [[Cell.num 1, Cell.nan]]⟩

/-- A server reporting 2500 studies whose second page window `(1000,1999)`
comes back empty while the other pages return one study each. -/
def zeroMidServer : Nat → Nat → PageResponse := fun a _ =>
  if a = 1 then ⟨1, 2500, [[Cell.num 1, Cell.str "a"]]⟩
  else if a = 1000 then ⟨0, 2500, []⟩
  else ⟨1, 2500, [[Cell.num 2, Cell.str "b"]]⟩

/-- The study database of the C2 counterexample: the rows at ranks 1 and 2
are distinct raw values (`nan` versus `""`) that the normalization maps to
the same row; every other rank holds its own number. -/
def cexStudies (r : Nat) : List Cell :=
  if r = 1 then [Cell.nan]
  else if r = 2 then [Cell.str ""] else [Cell.num r]

/-- The rows the source appends for a list of request windows: each window
contributes its page's rows when its `NStudiesReturned` is positive and
nothing otherwise. -/
def positiveRows (server : Nat → Nat → PageResponse)
    (ws : List (Nat × Nat)) : List (List Cell) :=
  (ws.map (fun w =>
    if 0 < (server w.1 w.2).nReturned then (server w.1 w.2).rows else [])).flatten

/-- Python `s.split("\t")` on the character list of a string. -/
def splitTabChars : List Char → List (List Char)
  | [] => [[]]
  | c :: rest =>
    if c = '\t' then [] :: splitTabChars rest
    else
      match splitTabChars rest with
      | [] => [[c]]
      | p :: ps => (c :: p) :: ps

/-- Python `s.split("\t")`. -/
def pySplitTab (s : String) : List String :=
  (splitTabChars s.data).map (fun l => String.mk l)

/-- Tab-joining on character lists (the character-level view of
`"\t".join`). -/
def joinTabChars : List (List Char) → List Char
  | [] => []
  | [x] => x
  | x :: y :: xs => x ++ '\t' :: joinTabChars (y :: xs)

/-! ## Basic lemmas about the page loop -/

/-- The fuel does not matter once it dominates the remaining rank count. -/
theorem fetchLoopF_congr (server : Nat → Nat → PageResponse) (t : Nat) :
    ∀ f1 f2 m M, t - M ≤ f1 → t - M ≤ f2 →
      fetchLoopF server f1 t m M = fetchLoopF server f2 t m M := by
  intro f1
  induction f1 with
  | zero =>
    intro f2 m M h1 h2
    cases f2 with
    | zero => rfl
    | succ f2 => simp [fetchLoopF, show ¬ t > M by omega]
  | succ f1 ih =>
    intro f2 m M h1 h2
    cases f2 with
    | zero => simp [fetchLoopF, show ¬ t > M by omega]
    | succ f2 =>
      by_cases h : t > M
      · simp only [fetchLoopF, if_pos h]
        rw [ih f2 (m + 999) (min t (M + 999)) (by omega) (by omega)]
      · simp [fetchLoopF, h]

/-- The loop stops as soon as the window upper bound reaches the total. -/
theorem fetchLoop_stop (server : Nat → Nat → PageResponse) (t m M : Nat)
    (h : t ≤ M) : fetchLoop server t m M = ([], []) := by
  unfold fetchLoop
  rw [show t - M = 0 by omega]
  rfl

/-- One-step unfolding of the `while` loop. -/
theorem fetchLoop_eq (server : Nat → Nat → PageResponse) (t m M : Nat) :
    fetchLoop server t m M =
      if t > M then
        ((m + 999, min t (M + 999)) ::
            (fetchLoop server t (m + 999) (min t (M + 999))).1,
          (if 0 < (server (m + 999) (min t (M + 999))).nReturned
            then (server (m + 999) (min t (M + 999))).rows
            else []) ++
            (fetchLoop server t (m + 999) (min t (M + 999))).2)
      else ([], []) := by
  by_cases h : t > M
  · rw [if_pos h]
    unfold fetchLoop
    rw [show t - M = (t - M - 1) + 1 by omega]
    simp only [fetchLoopF, if_pos h]
    rw [fetchLoopF_congr server t (t - M - 1) (t - min t (M + 999)) (m + 999)
      (min t (M + 999)) (by omega) (by omega)]
  · rw [if_neg h, fetchLoop_stop server t m M (by omega)]

/-- Consecutive request windows: each new window starts exactly at the
previous upper bound (a one-rank overlap) and ends at
`min t (previous upper bound + 999)`. -/
theorem fetchLoop_chain (server : Nat → Nat → PageResponse) (t : Nat) :
    ∀ fuel m M, t - M ≤ fuel → m + 999 = M → ∀ x : Nat,
      List.Chain (fun p q : Nat × Nat => q.1 = p.2 ∧ q.2 = min t (p.2 + 999))
        (x, M) (fetchLoop server t m M).1 := by
  intro fuel
  induction fuel with
  | zero =>
    intro m M hfuel hinv x
    rw [fetchLoop_stop server t m M (by omega)]
    exact List.Chain.nil
  | succ n ih =>
    intro m M hfuel hinv x
    by_cases hle : t ≤ M
    · rw [fetchLoop_stop server t m M hle]
      exact List.Chain.nil
    · push_neg at hle
      rw [fetchLoop_eq]
      simp only [gt_iff_lt, if_pos hle]
      refine List.Chain.cons ⟨hinv, rfl⟩ ?_
      by_cases hcl : t ≤ min t (M + 999)
      · rw [fetchLoop_stop server t (m + 999) (min t (M + 999)) hcl]
        exact List.Chain.nil
      · push_neg at hcl
        have hmin : min t (M + 999) = M + 999 := by omega
        rw [hmin]
        exact ih (m + 999) (M + 999) (by omega) (by omega) (m + 999)

/-- Every rank between the current upper bound and the total is covered by
some window the loop issues. -/
theorem fetchLoop_cover (server : Nat → Nat → PageResponse) (t : Nat) :
    ∀ fuel m M, t - M ≤ fuel → m + 999 = M → M < t →
      ∀ r, M ≤ r → r ≤ t →
        ∃ w ∈ (fetchLoop server t m M).1, w.1 ≤ r ∧ r ≤ w.2 := by
  intro fuel
  induction fuel with
  | zero => intro m M hfuel hinv hlt; omega
  | succ n ih =>
    intro m M hfuel hinv hlt r hMr hrt
    rw [fetchLoop_eq]
    simp only [gt_iff_lt, if_pos hlt]
    by_cases hr : r ≤ min t (M + 999)
    · exact ⟨(m + 999, min t (M + 999)), List.mem_cons_self _ _, by omega, hr⟩
    · push_neg at hr
      have hmin : min t (M + 999) = M + 999 := by omega
      obtain ⟨w, hw, hw1, hw2⟩ :=
        ih (m + 999) (M + 999) (by omega) (by omega) (by omega) r (by omega) hrt
      rw [hmin]
      exact ⟨w, List.mem_cons_of_mem _ hw, hw1, hw2⟩

/-- No window the loop issues reaches past the (clipped) total. -/
theorem fetchLoop_max_le (server : Nat → Nat → PageResponse) (t : Nat) :
    ∀ fuel m M, t - M ≤ fuel →
      ∀ w ∈ (fetchLoop server t m M).1, w.2 ≤ t := by
  intro fuel
  induction fuel with
  | zero =>
    intro m M hfuel w hw
    rw [fetchLoop_stop server t m M (by omega)] at hw
    simp at hw
  | succ n ih =>
    intro m M hfuel w hw
    by_cases hle : t ≤ M
    · rw [fetchLoop_stop server t m M hle] at hw
      simp at hw
    · push_neg at hle
      rw [fetchLoop_eq] at hw
      simp only [gt_iff_lt, if_pos hle] at hw
      rcases List.mem_cons.mp hw with h | h
      · subst h; exact Nat.min_le_left _ _
      · exact ih (m + 999) (min t (M + 999)) (by omega) w h

/-! ## Duplicate removal -/

theorem mem_dropDupsAux {α : Type} [DecidableEq α] (l : List α) :
    ∀ (seen : List α) (a : α),
      a ∈ dropDupsAux seen l ↔ a ∈ l ∧ a ∉ seen := by
  induction l with
  | nil =>
    intro seen a
    simp [dropDupsAux]
  | cons x xs ih =>
    intro seen a
    rw [dropDupsAux]
    by_cases hx : x ∈ seen
    · rw [if_pos hx, ih]
      simp only [List.mem_cons]
      constructor
      · rintro ⟨h1, h2⟩
        exact ⟨Or.inr h1, h2⟩
      · rintro ⟨h1 | h1, h2⟩
        · subst h1
          exact absurd hx h2
        · exact ⟨h1, h2⟩
    · rw [if_neg hx]
      simp only [List.mem_cons, ih]
      constructor
      · rintro (rfl | ⟨h1, h2⟩)
        · exact ⟨Or.inl rfl, hx⟩
        · exact ⟨Or.inr h1, fun hs => h2 (Or.inr hs)⟩
      · rintro ⟨h1 | h1, h2⟩
        · exact Or.inl h1
        · by_cases hax : a = x
          · exact Or.inl hax
          · refine Or.inr ⟨h1, fun hs => ?_⟩
            rcases hs with hs | hs
            · exact hax hs
            · exact h2 hs

theorem mem_dropDups {α : Type} [DecidableEq α] (l : List α) (a : α) :
    a ∈ dropDups l ↔ a ∈ l := by
  rw [dropDups, mem_dropDupsAux]
  simp

theorem nodup_dropDupsAux {α : Type} [DecidableEq α] (l : List α) :
    ∀ seen : List α, (dropDupsAux seen l).Nodup := by
  induction l with
  | nil =>
    intro seen
    simp [dropDupsAux]
  | cons x xs ih =>
    intro seen
    rw [dropDupsAux]
    by_cases hx : x ∈ seen
    · rw [if_pos hx]
      exact ih seen
    · rw [if_neg hx]
      refine List.nodup_cons.mpr ⟨?_, ih (x :: seen)⟩
      intro hmem
      exact ((mem_dropDupsAux xs (x :: seen) x).mp hmem).2 (List.mem_cons_self x seen)

theorem nodup_dropDups {α : Type} [DecidableEq α] (l : List α) :
    (dropDups l).Nodup :=
  nodup_dropDupsAux l []

theorem dropDups_toFinset {α : Type} [DecidableEq α] (l : List α) :
    (dropDups l).toFinset = l.toFinset := by
  ext a
  simp [List.mem_toFinset, mem_dropDups]

theorem length_dropDups {α : Type} [DecidableEq α] (l : List α) :
    (dropDups l).length = l.toFinset.card := by
  rw [← List.toFinset_card_of_nodup (nodup_dropDups l), dropDups_toFinset]

/-! ## Characterizing the successful run -/

/-- Evaluating `postprocess` on a frame that has a `Rank` column: erase that column
from every row, apply `normCell` to every cell, drop duplicate rows. -/
theorem postprocess_eq (d : DF) (h : "Rank" ∈ d.cols) :
    postprocess d = some ⟨d.cols.eraseIdx (d.cols.indexOf "Rank"),
      dropDups (d.rows.map
        (fun row => (row.eraseIdx (d.cols.indexOf "Rank")).map normCell))⟩ := by
  unfold postprocess delCol
  rw [if_pos h]
  simp only [Option.map_some']
  unfold dfReplace dfApplymap
  simp only [List.map_map]
  congr 3
  exact List.map_congr_left fun row _ => by
    simp only [Function.comp_apply, List.map_map]
    exact List.map_congr_left fun c _ => rfl

/-- The full function on the success path (non-empty query, at most 20
fields, first page non-empty, `Rank` column present). -/
theorem run_success_eq (q : String) (flds : List String) (lim : Option Nat)
    (cols : List String) (server : Nat → Nat → PageResponse)
    (hq : q.length ≠ 0) (hf : ¬ 20 < flds.length)
    (hret : 0 < (server 1 1000).nReturned) (hR : "Rank" ∈ cols) :
    query_ctgov_api q flds lim cols server =
      (.df ⟨cols.eraseIdx (cols.indexOf "Rank"),
          dropDups
            (((server 1 1000).rows ++
                (fetchLoop server (clipTotal (server 1 1000).nFound lim) 1 1000).2).map
              (fun row => (row.eraseIdx (cols.indexOf "Rank")).map normCell))⟩,
        (1, 1000) ::
          (fetchLoop server (clipTotal (server 1 1000).nFound lim) 1 1000).1) := by
  unfold query_ctgov_api
  rw [if_neg hq, if_neg hf, if_pos hret]
  rw [postprocess_eq ⟨cols, (server 1 1000).rows ++
      (fetchLoop server (clipTotal (server 1 1000).nFound lim) 1 1000).2⟩ hR]

/-! ## The rank-database server -/

theorem ctgovServer_rows_mem (N : Nat) (s : Nat → List Cell) (a b : Nat)
    (x : List Cell) :
    x ∈ (ctgovServer N s a b).rows ↔
      ∃ r, a ≤ r ∧ r ≤ min b N ∧ x = Cell.num r :: s r := by
  unfold ctgovServer pageRows
  by_cases h : a ≤ min b N
  · rw [if_pos h]
    simp only [List.mem_map, List.mem_range'_1]
    constructor
    · rintro ⟨r, ⟨h1, h2⟩, h3⟩
      exact ⟨r, h1, by omega, h3.symm⟩
    · rintro ⟨r, h1, h2, h3⟩
      exact ⟨r, ⟨h1, by omega⟩, h3.symm⟩
  · rw [if_neg h]
    simp only [List.not_mem_nil, false_iff, not_exists, not_and]
    intro r h1 h2
    omega

theorem ctgovServer_nReturned (N : Nat) (s : Nat → List Cell) (a b : Nat) :
    (ctgovServer N s a b).nReturned =
      if a ≤ min b N then min b N + 1 - a else 0 := by
  unfold ctgovServer pageRows
  by_cases h : a ≤ min b N
  · rw [if_pos h, if_pos h]
    simp [List.length_range']
  · rw [if_neg h, if_neg h]
    rfl

/-- Rows accumulated by the page loop against a rank database: exactly the
studies at ranks from the current upper bound to the clipped total. -/
theorem fetchLoop_rows_mem (N : Nat) (s : Nat → List Cell) (t : Nat)
    (htN : t ≤ N) :
    ∀ fuel m M, t - M ≤ fuel → m + 999 = M → ∀ x,
      (x ∈ (fetchLoop (ctgovServer N s) t m M).2 ↔
        (M < t ∧ ∃ r, M ≤ r ∧ r ≤ t ∧ x = Cell.num r :: s r)) := by
  intro fuel
  induction fuel with
  | zero =>
    intro m M hfuel hinv x
    rw [fetchLoop_stop _ t m M (by omega)]
    simp only [List.not_mem_nil, false_iff, not_and]
    omega
  | succ n ih =>
    intro m M hfuel hinv x
    by_cases hle : t ≤ M
    · rw [fetchLoop_stop _ t m M hle]
      simp only [List.not_mem_nil, false_iff, not_and]
      omega
    · push_neg at hle
      rw [fetchLoop_eq]
      simp only [gt_iff_lt, if_pos hle]
      rw [hinv]
      have hminN : min (min t (M + 999)) N = min t (M + 999) := by omega
      have hpos : 0 < (ctgovServer N s M (min t (M + 999))).nReturned := by
        rw [ctgovServer_nReturned, hminN, if_pos (by omega)]
        omega
      rw [if_pos hpos]
      simp only [List.mem_append, ctgovServer_rows_mem, hminN]
      by_cases hcl : t ≤ min t (M + 999)
      · rw [fetchLoop_stop _ t M (min t (M + 999)) hcl]
        simp only [List.not_mem_nil, or_false]
        constructor
        · rintro ⟨r, h1, h2, h3⟩
          exact ⟨hle, r, h1, by omega, h3⟩
        · rintro ⟨-, r, h1, h2, h3⟩
          exact ⟨r, h1, by omega, h3⟩
      · push_neg at hcl
        have hmin : min t (M + 999) = M + 999 := by omega
        rw [ih M (min t (M + 999)) (by omega) (by omega) x]
        constructor
        · rintro (⟨r, h1, h2, h3⟩ | ⟨-, r, h1, h2, h3⟩)
          · exact ⟨hle, r, h1, by omega, h3⟩
          · exact ⟨hle, r, by omega, h2, h3⟩
        · rintro ⟨-, r, h1, h2, h3⟩
          by_cases hr : r ≤ min t (M + 999)
          · exact Or.inl ⟨r, h1, hr, h3⟩
          · exact Or.inr ⟨by omega, r, by omega, h2, h3⟩

/-- Success-path characterization of a whole run against a rank database
holding `N > 1000` studies: the result is a table over the study columns
whose rows are the deduplication of a list containing exactly the
normalized study rows of ranks `1, …, N`. -/
theorem run_ctgov_char (N : Nat) (s : Nat → List Cell) (q : String)
    (flds cols' : List String) (hq : q.length ≠ 0) (hf : ¬ 20 < flds.length)
    (hN : 1000 < N) :
    ∃ P : List (List Cell),
      (query_ctgov_api q flds Option.none ("Rank" :: cols')
          (ctgovServer N s)).1 = .df ⟨cols', dropDups P⟩ ∧
      (∀ x, x ∈ P ↔ ∃ r, 1 ≤ r ∧ r ≤ N ∧ x = (s r).map normCell) := by
  have hfound : (ctgovServer N s 1 1000).nFound = N := rfl
  have hret : 0 < (ctgovServer N s 1 1000).nReturned := by
    rw [ctgovServer_nReturned, if_pos (by omega)]
    omega
  have hR : "Rank" ∈ ("Rank" :: cols') := List.mem_cons_self _ _
  have hrun := run_success_eq q flds Option.none ("Rank" :: cols')
    (ctgovServer N s) hq hf hret hR
  have hidx : List.indexOf "Rank" ("Rank" :: cols') = 0 := by
    simp [List.indexOf_cons_self]
  rw [hidx, hfound] at hrun
  have hclip : clipTotal N Option.none = N := rfl
  rw [hclip] at hrun
  refine ⟨((ctgovServer N s 1 1000).rows ++
      (fetchLoop (ctgovServer N s) N 1 1000).2).map
        (fun row => (row.eraseIdx 0).map normCell), ?_, ?_⟩
  · rw [Prod.ext_iff] at hrun
    exact hrun.1
  · intro x
    simp only [List.mem_map, List.mem_append, ctgovServer_rows_mem,
      fetchLoop_rows_mem N s N le_rfl (N - 1000) 1 1000 (by omega) (by omega)]
    have hmin : min 1000 N = 1000 := by omega
    rw [hmin]
    constructor
    · rintro ⟨row, (⟨r, h1, h2, h3⟩ | ⟨-, r, h1, h2, h3⟩), h4⟩
      · exact ⟨r, h1, by omega, by rw [← h4, h3, List.eraseIdx_cons_zero]⟩
      · exact ⟨r, by omega, h2, by rw [← h4, h3, List.eraseIdx_cons_zero]⟩
    · rintro ⟨r, h1, h2, h3⟩
      by_cases hr : r ≤ 1000
      · exact ⟨Cell.num r :: s r, Or.inl ⟨r, h1, hr, rfl⟩,
          by rw [List.eraseIdx_cons_zero, ← h3]⟩
      · exact ⟨Cell.num r :: s r, Or.inr ⟨by omega, r, by omega, h2, rfl⟩,
          by rw [List.eraseIdx_cons_zero, ← h3]⟩

/-- Row count of a successful run against a rank database: the number of
distinct normalized study rows among ranks `1, …, N`. -/
theorem run_ctgov_count (N : Nat) (s : Nat → List Cell) (q : String)
    (flds cols' : List String) (hq : q.length ≠ 0) (hf : ¬ 20 < flds.length)
    (hN : 1000 < N) :
    ∃ d, (query_ctgov_api q flds Option.none ("Rank" :: cols')
        (ctgovServer N s)).1 = .df d ∧
      d.cols = cols' ∧ d.rows.Nodup ∧
      d.rows.length =
        ((Finset.Icc 1 N).image (fun r => (s r).map normCell)).card := by
  obtain ⟨P, hres, hmem⟩ := run_ctgov_char N s q flds cols' hq hf hN
  refine ⟨⟨cols', dropDups P⟩, hres, rfl, nodup_dropDups P, ?_⟩
  show (dropDups P).length = _
  rw [length_dropDups]
  congr 1
  ext x
  simp only [List.mem_toFinset, hmem, Finset.mem_image, Finset.mem_Icc]
  constructor
  · rintro ⟨r, h1, h2, h3⟩
    exact ⟨r, ⟨h1, h2⟩, h3.symm⟩
  · rintro ⟨r, ⟨h1, h2⟩, h3⟩
    exact ⟨r, h1, h2, h3.symm⟩

/-! ## Tab joining and splitting (for the flattening round-trip claim)

The source flattens a list-valued cell with Python's `"\t".join(x)`
(`String.intercalate "\t"` here).  The specification's round-trip check
splits the joined string on tab, Python `str.split("\t")` style: splitting
the empty string yields `[""]`, and `n` separators yield `n + 1` parts. -/

theorem data_append (s t : String) : (s ++ t).data = s.data ++ t.data := by
  cases s
  cases t
  rfl

theorem intercalate_go_data (sep : String) (as : List String) :
    ∀ acc : String, (String.intercalate.go acc sep as).data =
      acc.data ++ (as.map (fun a => sep.data ++ a.data)).flatten := by
  induction as with
  | nil => intro acc; simp [String.intercalate.go]
  | cons a as ih =>
    intro acc
    rw [String.intercalate.go, ih]
    simp [data_append, List.flatten, List.append_assoc]

theorem joinTabChars_cons_eq (x : List Char) (ps : List (List Char)) :
    joinTabChars (x :: ps) = x ++ (ps.map (fun p => '\t' :: p)).flatten := by
  induction ps generalizing x with
  | nil => simp [joinTabChars]
  | cons p ps ih =>
    cases ps with
    | nil => simp [joinTabChars]
    | cons p2 ps2 =>
      rw [joinTabChars, ih]
      simp [List.flatten, List.append_assoc]

/-- Joining with tab, seen on character lists. -/
theorem intercalate_tab_data (l : List String) :
    (String.intercalate "\t" l).data = joinTabChars (l.map String.data) := by
  cases l with
  | nil => rfl
  | cons a as =>
    rw [String.intercalate, intercalate_go_data]
    simp only [List.map_cons]
    rw [joinTabChars_cons_eq, List.map_map]
    rfl

theorem splitTabChars_ne_nil (l : List Char) : splitTabChars l ≠ [] := by
  cases l with
  | nil => simp [splitTabChars]
  | cons c rest =>
    rw [splitTabChars]
    by_cases hc : c = '\t'
    · simp [hc]
    · rw [if_neg hc]
      cases h : splitTabChars rest <;> simp

theorem splitTabChars_tab_free (x : List Char) (hx : '\t' ∉ x) :
    splitTabChars x = [x] := by
  induction x with
  | nil => rfl
  | cons c x ih =>
    have hc : ¬ c = '\t' := fun h => hx (h ▸ List.mem_cons_self c x)
    have hx' : '\t' ∉ x := fun h => hx (List.mem_cons_of_mem _ h)
    rw [splitTabChars, if_neg hc, ih hx']

theorem splitTabChars_append_tab (x w : List Char) (hx : '\t' ∉ x) :
    (splitTabChars (x ++ '\t' :: w)).length = (splitTabChars w).length + 1 := by
  induction x with
  | nil =>
    simp [splitTabChars]
  | cons c x ih =>
    have hc : ¬ c = '\t' := fun h => hx (h ▸ List.mem_cons_self c x)
    have hx' : '\t' ∉ x := fun h => hx (List.mem_cons_of_mem _ h)
    rw [List.cons_append, splitTabChars, if_neg hc]
    cases h : splitTabChars (x ++ '\t' :: w) with
    | nil => exact absurd h (splitTabChars_ne_nil _)
    | cons p ps =>
      have hlen := ih hx'
      rw [h] at hlen
      simpa using hlen

/-- Splitting a tab-join on tab recovers the number of parts, provided there
is at least one part and no part contains a tab itself. -/
theorem splitTab_joinTab_length (ps : List (List Char)) (hne : ps ≠ [])
    (hp : ∀ p ∈ ps, '\t' ∉ p) :
    (splitTabChars (joinTabChars ps)).length = ps.length := by
  induction ps with
  | nil => exact absurd rfl hne
  | cons x ps ih =>
    cases ps with
    | nil =>
      rw [joinTabChars, splitTabChars_tab_free x (hp x (List.mem_cons_self x _))]
    | cons y ps' =>
      rw [joinTabChars,
        splitTabChars_append_tab x _ (hp x (List.mem_cons_self x _)),
        show joinTabChars (y :: ps') = joinTabChars (y :: ps') from rfl]
      rw [ih (by simp) (fun p hmem => hp p (List.mem_cons_of_mem _ hmem))]
      simp

/-! ## Result-shape helpers -/

/-- On the success path the issued windows are the first page window
followed by the loop windows for the clipped total, whatever `postprocess`
does. -/
theorem run_snd_eq (q : String) (flds : List String) (lim : Option Nat)
    (cols : List String) (server : Nat → Nat → PageResponse)
    (hq : q.length ≠ 0) (hf : ¬ 20 < flds.length)
    (hret : 0 < (server 1 1000).nReturned) :
    (query_ctgov_api q flds lim cols server).2 =
      (1, 1000) ::
        (fetchLoop server (clipTotal (server 1 1000).nFound lim) 1 1000).1 := by
  unfold query_ctgov_api
  rw [if_neg hq, if_neg hf, if_pos hret]
  cases hpp : postprocess ⟨cols, (server 1 1000).rows ++
      (fetchLoop server (clipTotal (server 1 1000).nFound lim) 1 1000).2⟩ <;>
    rfl

/-- A dataframe can only come out of a run in which `postprocess` succeeded
on the accumulated frame. -/
theorem result_df_postprocess (q : String) (flds : List String)
    (lim : Option Nat) (cols : List String)
    (server : Nat → Nat → PageResponse) (d : DF)
    (h : (query_ctgov_api q flds lim cols server).1 = .df d) :
    ∃ R : List (List Cell), postprocess ⟨cols, R⟩ = some d := by
  unfold query_ctgov_api at h
  by_cases h1 : q.length = 0
  · rw [if_pos h1] at h
    exact absurd h (by simp)
  · rw [if_neg h1] at h
    by_cases h2 : flds.length > 20
    · rw [if_pos h2] at h
      exact absurd h (by simp)
    · rw [if_neg h2] at h
      by_cases h3 : 0 < (server 1 1000).nReturned
      · rw [if_pos h3] at h
        refine ⟨(server 1 1000).rows ++
          (fetchLoop server (clipTotal (server 1 1000).nFound lim) 1 1000).2, ?_⟩
        revert h
        cases hpp : postprocess ⟨cols, (server 1 1000).rows ++
            (fetchLoop server (clipTotal (server 1 1000).nFound lim) 1 1000).2⟩ with
        | none => intro h; exact absurd h (by simp)
        | some d2 =>
          intro h
          simp only [PyResult.df.injEq] at h
          rw [h]
      · rw [if_neg h3] at h
        exact absurd h (by simp)

/-- Partial correctness of the column drop: `postprocess` succeeds only when a `Rank` column is present. -/
theorem postprocess_some_rank (cols : List String) (R : List (List Cell))
    (d : DF) (h : postprocess ⟨cols, R⟩ = some d) : "Rank" ∈ cols := by
  by_contra hmem
  unfold postprocess delCol at h
  rw [if_neg hmem] at h
  simp at h

/-! ## Claims -/

/-- C9 (confirmed).  For every call with an empty query string the
operation returns Python `None` together with an empty request list: a
silent no-op, distinct (as a `PyResult`) from every table outcome and from
every sentinel-string outcome. -/
theorem C9_empty_query (flds : List String) (lim : Option Nat)
    (cols : List String) (server : Nat → Nat → PageResponse) :
    query_ctgov_api "" flds lim cols server = (.none, []) ∧
    (∀ d : DF, PyResult.none ≠ PyResult.df d) ∧
    (∀ s : String, PyResult.none ≠ PyResult.str s) := by
  refine ⟨?_, ?_, ?_⟩
  · unfold query_ctgov_api
    rw [if_pos (show "".length = 0 from rfl)]
  · intro d h
    exact PyResult.noConfusion h
  · intro s h
    exact PyResult.noConfusion h

/-- C3 counterexample.  A call with 21 return fields but an *empty*
query string returns Python `None`, not the too-many-fields sentinel: the
empty-query check runs first, so the claim as stated (for *every* call
with more than 20 fields) fails. -/
theorem C3_counterexample :
    query_ctgov_api "" (List.replicate 21 "f") Option.none [] emptyServer =
      (.none, []) ∧
    (List.replicate 21 "f").length = 21 ∧
    PyResult.none ≠ PyResult.str "Too many search results to return! Max 20" := by
  exact ⟨by decide, by decide, by decide⟩

/-- C3 (amended).  For every call with a *non-empty* query and more
than 20 return fields, the operation returns the sentinel string
"Too many search results to return! Max 20" and issues no request. -/
theorem C3_too_many_fields (q : String) (flds : List String)
    (lim : Option Nat) (cols : List String)
    (server : Nat → Nat → PageResponse)
    (hq : q.length ≠ 0) (hf : 20 < flds.length) :
    query_ctgov_api q flds lim cols server =
      (.str "Too many search results to return! Max 20", []) := by
  unfold query_ctgov_api
  rw [if_neg hq, if_pos hf]

theorem C3_too_many_fields_witness :
    query_ctgov_api "a" (List.replicate 21 "f") Option.none [] emptyServer =
      (.str "Too many search results to return! Max 20", []) :=
  C3_too_many_fields "a" (List.replicate 21 "f") Option.none [] emptyServer
    (by decide) (by decide)

/-- C4 (confirmed).  Whenever the first page response reports zero
studies returned, the run yields the sentinel string "No studies found"
(after the single first-page request) and no table outcome at all. -/
theorem C4_no_studies (q : String) (flds : List String) (lim : Option Nat)
    (cols : List String) (server : Nat → Nat → PageResponse)
    (hq : q.length ≠ 0) (hf : ¬ 20 < flds.length)
    (h0 : (server 1 1000).nReturned = 0) :
    query_ctgov_api q flds lim cols server =
      (.str "No studies found", [(1, 1000)]) ∧
    ∀ d : DF, (query_ctgov_api q flds lim cols server).1 ≠ .df d := by
  have heq : query_ctgov_api q flds lim cols server =
      (.str "No studies found", [(1, 1000)]) := by
    unfold query_ctgov_api
    rw [if_neg hq, if_neg hf, if_neg (by omega : ¬ 0 < (server 1 1000).nReturned)]
  refine ⟨heq, fun d h => ?_⟩
  rw [heq] at h
  exact PyResult.noConfusion h

theorem C4_no_studies_witness :
    query_ctgov_api "a" ["f"] Option.none [] emptyServer =
      (.str "No studies found", [(1, 1000)]) :=
  (C4_no_studies "a" ["f"] Option.none [] emptyServer
    (by decide) (by decide) rfl).1

/-- C1 counterexample.  A fetch with `n_total = 1500 > 1000` issues the
windows `(1,1000)` and `(1000,1500)`: the second window's lower bound
equals the previous upper bound (1000), not the previous upper bound plus
one (1001) — the windows overlap in one rank instead of partitioning. -/
theorem C1_counterexample :
    (query_ctgov_api "a" ["f"] Option.none ["Rank"] (constServer 1500)).2 =
      [(1, 1000), (1000, 1500)] ∧
    (1000 : Nat) ≠ 1000 + 1 := by
  exact ⟨by decide, by decide⟩

/-- C1 (amended).  For every fetch whose clipped total `t` exceeds the
page size, the issued windows are the first page `(1,1000)` followed by the
loop windows; consecutive windows `p, w` satisfy `w.min = p.max` (a
one-rank overlap, not `p.max + 1`) and
`w.max = min t (p.max + 999)`; and the windows still cover every rank of
`[1, t]` with no gap. -/
theorem C1_windows (q : String) (flds : List String) (lim : Option Nat)
    (cols : List String) (server : Nat → Nat → PageResponse) (t : Nat)
    (hq : q.length ≠ 0) (hf : ¬ 20 < flds.length)
    (hret : 0 < (server 1 1000).nReturned)
    (ht : t = clipTotal (server 1 1000).nFound lim) (htb : 1000 < t) :
    (query_ctgov_api q flds lim cols server).2 =
      (1, 1000) :: (fetchLoop server t 1 1000).1 ∧
    List.Chain (fun p w : Nat × Nat => w.1 = p.2 ∧ w.2 = min t (p.2 + 999))
      (1, 1000) (fetchLoop server t 1 1000).1 ∧
    (∀ r, 1 ≤ r → r ≤ t →
      ∃ w ∈ (query_ctgov_api q flds lim cols server).2,
        w.1 ≤ r ∧ r ≤ w.2) := by
  subst ht
  have hsnd := run_snd_eq q flds lim cols server hq hf hret
  refine ⟨hsnd, ?_, ?_⟩
  · exact fetchLoop_chain server _ (clipTotal (server 1 1000).nFound lim - 1000)
      1 1000 le_rfl (by omega) 1
  · intro r hr1 hrt
    rw [hsnd]
    by_cases hr : r ≤ 1000
    · exact ⟨(1, 1000), List.mem_cons_self _ _, hr1, hr⟩
    · obtain ⟨w, hw, hw1, hw2⟩ := fetchLoop_cover server _
        (clipTotal (server 1 1000).nFound lim - 1000) 1 1000 le_rfl (by omega)
        htb r (by omega) hrt
      exact ⟨w, List.mem_cons_of_mem _ hw, hw1, hw2⟩

theorem C1_windows_witness :
    (query_ctgov_api "b" ["f"] Option.none ["Rank"] (constServer 3000)).2 =
      (1, 1000) :: (fetchLoop (constServer 3000) 3000 1 1000).1 :=
  (C1_windows "b" ["f"] Option.none ["Rank"] (constServer 3000) 3000
    (by decide) (by decide) (by decide) rfl (by decide)).1

/-- C6 (confirmed).  With a result limit `L` the fetch clips the total
to `t = min NStudiesFound L` and paginates for `t`: the issued windows are
determined by `t`; no window ends beyond `max 1000 t` (the first page is
always a whole 1000-rank page); some issued window reaches `t`; the loop
issues nothing once the upper bound has reached `t`; and (last conjunct) a
concrete run with `L = 1` returns a table with more rows than `L` — pages
are downloaded whole, never truncated to the limit. -/
theorem C6_limit (q : String) (flds : List String) (cols : List String)
    (server : Nat → Nat → PageResponse) (L t : Nat)
    (hq : q.length ≠ 0) (hf : ¬ 20 < flds.length)
    (hret : 0 < (server 1 1000).nReturned)
    (ht : t = min (server 1 1000).nFound L) :
    (query_ctgov_api q flds (some L) cols server).2 =
      (1, 1000) :: (fetchLoop server t 1 1000).1 ∧
    (∀ w ∈ (query_ctgov_api q flds (some L) cols server).2,
      w.2 ≤ max 1000 t) ∧
    (∃ w ∈ (query_ctgov_api q flds (some L) cols server).2, t ≤ w.2) ∧
    (∀ m M, t ≤ M → fetchLoop server t m M = ([], [])) ∧
    (∃ d, (query_ctgov_api "a" ["f"] (some 1) ["Rank", "f"]
        overshootServer).1 = .df d ∧ 1 < d.rows.length) := by
  have hclip : clipTotal (server 1 1000).nFound (some L) = t := by
    rw [ht]; rfl
  have hsnd := run_snd_eq q flds (some L) cols server hq hf hret
  rw [hclip] at hsnd
  refine ⟨hsnd, ?_, ?_, ?_, ?_⟩
  · intro w hw
    rw [hsnd] at hw
    rcases List.mem_cons.mp hw with h | h
    · subst h
      exact le_max_left _ _
    · have := fetchLoop_max_le server t (t - 1000) 1 1000 le_rfl w h
      omega
  · rw [hsnd]
    by_cases hle : t ≤ 1000
    · exact ⟨(1, 1000), List.mem_cons_self _ _, hle⟩
    · obtain ⟨w, hw, hw1, hw2⟩ := fetchLoop_cover server t (t - 1000) 1 1000
        le_rfl (by omega) (by omega) t (by omega) le_rfl
      exact ⟨w, List.mem_cons_of_mem _ hw, hw2⟩
  · intro m M hM
    exact fetchLoop_stop server t m M hM
  · exact ⟨⟨["f"], [[Cell.str "a"], [Cell.str "b"]]⟩, by decide, by decide⟩

theorem C6_limit_witness :
    (query_ctgov_api "a" ["f"] (some 1) ["Rank", "f"] overshootServer).2 =
      (1, 1000) :: (fetchLoop overshootServer 1 1 1000).1 :=
  (C6_limit "a" ["f"] ["Rank", "f"] overshootServer 1 1
    (by decide) (by decide) (by decide) (by decide)).1

/-- C5 counterexample.  A run whose only pre-processing cell holds the
empty list produces the cell `""` (the tab-join of the empty list), and
splitting `""` on tab yields one part, not zero: the length round-trip of
the claim fails for empty lists. -/
theorem C5_counterexample :
    (query_ctgov_api "a" ["f"] Option.none ["Rank", "f"] emptyListServer).1 =
      .df ⟨["f"], [[Cell.str ""]]⟩ ∧
    (pySplitTab (String.intercalate "\t" ([] : List String))).length = 1 ∧
    ([] : List String).length = 0 := by
  exact ⟨by decide, rfl, rfl⟩

/-- C5 (amended).  Every list-valued cell is flattened by the cell
normalization into the tab-join of its elements; and for *non-empty* lists
whose elements contain no tab character, splitting the joined string on
tab recovers a list of the original length. -/
theorem C5_join_roundtrip (l : List String) :
    normCell (Cell.lst l) = Cell.str (String.intercalate "\t" l) ∧
    (l ≠ [] → (∀ s ∈ l, '\t' ∉ s.data) →
      (pySplitTab (String.intercalate "\t" l)).length = l.length) := by
  constructor
  · simp [normCell, replaceCell, joinIfList]
  · intro hne hfree
    unfold pySplitTab
    rw [List.length_map, intercalate_tab_data, splitTab_joinTab_length]
    · exact List.length_map l String.data
    · simp [hne]
    · intro p hp
      obtain ⟨s, hs, rfl⟩ := List.mem_map.mp hp
      exact hfree s hs

theorem C5_join_roundtrip_witness :
    normCell (Cell.lst ["a", "b"]) =
      Cell.str (String.intercalate "\t" ["a", "b"]) ∧
    (pySplitTab (String.intercalate "\t" ["a", "b"])).length = 2 :=
  ⟨(C5_join_roundtrip ["a", "b"]).1,
    (C5_join_roundtrip ["a", "b"]).2 (by decide) (by decide)⟩

/-- C7 counterexample.  A returned table can contain a cell with a
literal tab character: list flattening (line 95) runs *after* the
tab-replacement passes (lines 93-94), and those passes replace only cells
exactly equal to `"\t"`, so the joined cell `"a\tb"` survives. -/
theorem C7_counterexample :
    (query_ctgov_api "a" ["f"] Option.none ["Rank", "f"] listCellServer).1 =
      .df ⟨["f"], [[Cell.str "a\tb"]]⟩ ∧
    '\t' ∈ ("a\tb" : String).data := by
  exact ⟨by decide, by decide⟩

/-- Normalization never outputs the missing-value marker. -/
theorem normCell_ne_nan (c : Cell) : normCell c ≠ Cell.nan := by
  have h : ∀ y : Cell, replaceCell Cell.nan (Cell.str "") y ≠ Cell.nan := by
    intro y
    unfold replaceCell
    by_cases hy : y = Cell.nan <;> simp [hy]
  exact h _

/-- C7 (amended).  In every returned table no cell is the
missing-value marker (all were replaced by the empty string), and a cell
that was exactly a lone tab or lone newline was replaced by a space; but
cells may still *contain* embedded tab/newline characters (see the
counterexample), because the replacement passes match whole cells only and
list flattening re-introduces tabs after them. -/
theorem C7_normalized (q : String) (flds : List String) (lim : Option Nat)
    (cols : List String) (server : Nat → Nat → PageResponse) (d : DF)
    (h : (query_ctgov_api q flds lim cols server).1 = .df d) :
    (∀ row ∈ d.rows, ∀ c ∈ row, c ≠ Cell.nan) ∧
    normCell (Cell.str "\t") = Cell.str " " ∧
    normCell (Cell.str "\n") = Cell.str " " ∧
    normCell Cell.nan = Cell.str "" := by
  refine ⟨?_, by decide, by decide, by decide⟩
  obtain ⟨R, hpp⟩ := result_df_postprocess q flds lim cols server d h
  have hmem := postprocess_some_rank cols R d hpp
  rw [postprocess_eq ⟨cols, R⟩ hmem] at hpp
  simp only [Option.some.injEq] at hpp
  intro row hrow c hc
  rw [← hpp] at hrow
  have hrow2 := (mem_dropDups _ row).mp hrow
  obtain ⟨row0, -, hrow0⟩ := List.mem_map.mp hrow2
  rw [← hrow0] at hc
  obtain ⟨c0, -, hc0⟩ := List.mem_map.mp hc
  rw [← hc0]
  exact normCell_ne_nan c0

theorem C7_normalized_witness : normCell Cell.nan = Cell.str "" :=
  (C7_normalized "a" ["f"] Option.none ["Rank", "f"] nanServer
    ⟨["f"], [[Cell.str ""]]⟩ (by decide)).2.2.2

/-- Removing the entry at the index of `a` removes `a` from a
duplicate-free list. -/
theorem not_mem_eraseIdx_indexOf (l : List String) (a : String)
    (h : l.Nodup) : a ∉ l.eraseIdx (l.indexOf a) := by
  induction l with
  | nil => simp
  | cons b l ih =>
    by_cases hab : a = b
    · subst hab
      rw [List.indexOf_cons_self, List.eraseIdx_cons_zero]
      exact (List.nodup_cons.mp h).1
    · rw [List.indexOf_cons_ne _ (fun hba => hab hba.symm),
        List.eraseIdx_cons_succ]
      intro hmem
      rcases List.mem_cons.mp hmem with h1 | h1
      · exact hab h1
      · exact ih (List.nodup_cons.mp h).2 h1

/-- C8 (confirmed).  Whenever a run returns a table, that table has no
column named "Rank" (the frame's columns come from the response's field
names, which are pairwise distinct — `cols.Nodup`). -/
theorem C8_no_rank (q : String) (flds : List String) (lim : Option Nat)
    (cols : List String) (server : Nat → Nat → PageResponse) (d : DF)
    (hnd : cols.Nodup)
    (h : (query_ctgov_api q flds lim cols server).1 = .df d) :
    "Rank" ∉ d.cols := by
  obtain ⟨R, hpp⟩ := result_df_postprocess q flds lim cols server d h
  have hmem := postprocess_some_rank cols R d hpp
  rw [postprocess_eq ⟨cols, R⟩ hmem] at hpp
  simp only [Option.some.injEq] at hpp
  have hd : d.cols = cols.eraseIdx (cols.indexOf "Rank") := by
    rw [← hpp]
  rw [hd]
  exact not_mem_eraseIdx_indexOf cols "Rank" hnd

theorem C8_no_rank_witness : "Rank" ∉ (DF.mk ["f"] [[Cell.str ""]]).cols :=
  C8_no_rank "a" ["f"] Option.none ["Rank", "f"] nanServer
    ⟨["f"], [[Cell.str ""]]⟩ (by decide) (by decide)

/-- The loop's accumulated rows are exactly the positive pages' rows of the
windows it issued. -/
theorem fetchLoop_rows_eq_positive (server : Nat → Nat → PageResponse)
    (t : Nat) : ∀ fuel m M, t - M ≤ fuel →
      (fetchLoop server t m M).2 =
        positiveRows server (fetchLoop server t m M).1 := by
  intro fuel
  induction fuel with
  | zero =>
    intro m M hfuel
    rw [fetchLoop_stop server t m M (by omega)]
    rfl
  | succ n ih =>
    intro m M hfuel
    by_cases hle : t ≤ M
    · rw [fetchLoop_stop server t m M hle]
      rfl
    · push_neg at hle
      rw [fetchLoop_eq]
      simp only [gt_iff_lt, if_pos hle]
      rw [ih (m + 999) (min t (M + 999)) (by omega)]
      rfl

/-- C10 (confirmed).  If some loop page reports zero studies returned,
the run still returns a table (no error outcome and no sentinel string):
the post-processing of the first page's rows plus the rows of exactly the
positive later pages — the zero page contributes nothing. -/
theorem C10_zero_page (q : String) (flds : List String) (lim : Option Nat)
    (cols : List String) (server : Nat → Nat → PageResponse) (t : Nat)
    (hq : q.length ≠ 0) (hf : ¬ 20 < flds.length)
    (hret : 0 < (server 1 1000).nReturned) (hR : "Rank" ∈ cols)
    (ht : t = clipTotal (server 1 1000).nFound lim)
    (hzero : ∃ w ∈ (fetchLoop server t 1 1000).1,
      (server w.1 w.2).nReturned = 0) :
    ∃ d, (query_ctgov_api q flds lim cols server).1 = .df d ∧
      postprocess ⟨cols, (server 1 1000).rows ++
        positiveRows server (fetchLoop server t 1 1000).1⟩ = some d ∧
      (query_ctgov_api q flds lim cols server).1 ≠ .keyError ∧
      (∀ s : String, (query_ctgov_api q flds lim cols server).1 ≠ .str s) := by
  subst ht
  rw [← fetchLoop_rows_eq_positive server _
    (clipTotal (server 1 1000).nFound lim - 1000) 1 1000 le_rfl]
  have heq := run_success_eq q flds lim cols server hq hf hret hR
  have h1 : (query_ctgov_api q flds lim cols server).1 =
      .df ⟨cols.eraseIdx (cols.indexOf "Rank"),
        dropDups
          (((server 1 1000).rows ++
              (fetchLoop server (clipTotal (server 1 1000).nFound lim) 1
                1000).2).map
            (fun row => (row.eraseIdx (cols.indexOf "Rank")).map normCell))⟩ := by
    rw [heq]
  refine ⟨_, h1, ?_, ?_, ?_⟩
  · rw [postprocess_eq _ hR]
  · rw [h1]
    exact fun hcontra => PyResult.noConfusion hcontra
  · intro s
    rw [h1]
    exact fun hcontra => PyResult.noConfusion hcontra

theorem C10_zero_page_witness :
    ∃ d, (query_ctgov_api "a" ["f"] Option.none ["Rank", "f"]
        zeroMidServer).1 = .df d ∧
      postprocess ⟨["Rank", "f"], (zeroMidServer 1 1000).rows ++
        positiveRows zeroMidServer
          (fetchLoop zeroMidServer 2500 1 1000).1⟩ = some d := by
  obtain ⟨d, h1, h2, -, -⟩ := C10_zero_page "a" ["f"] Option.none ["Rank", "f"]
    zeroMidServer 2500 (by decide) (by decide) (by decide) (by decide)
    (by decide) (by decide)
  exact ⟨d, h1, h2⟩

/-- C2 (amended).  Against a duplicate-free rank database of
`N > 1000` studies whose *normalized* rows are still pairwise distinct, a
run without a result limit returns a table with exactly `N` rows and no
two identical rows. -/
theorem C2_rowcount (N : Nat) (s : Nat → List Cell) (q : String)
    (flds cols' : List String) (hq : q.length ≠ 0) (hf : ¬ 20 < flds.length)
    (hN : 1000 < N)
    (hinj : ∀ r1 ∈ Finset.Icc 1 N, ∀ r2 ∈ Finset.Icc 1 N,
      (s r1).map normCell = (s r2).map normCell → r1 = r2) :
    ∃ d, (query_ctgov_api q flds Option.none ("Rank" :: cols')
        (ctgovServer N s)).1 = .df d ∧
      d.rows.length = N ∧ d.rows.Nodup := by
  obtain ⟨d, h1, h2, h3, h4⟩ := run_ctgov_count N s q flds cols' hq hf hN
  refine ⟨d, h1, ?_, h3⟩
  rw [h4, Finset.card_image_of_injOn
    (fun a ha b hb hab => hinj a (by simpa using ha) b (by simpa using hb) hab)]
  rw [Nat.card_Icc]
  omega

theorem C2_rowcount_witness :
    ∃ d, (query_ctgov_api "a" ["f"] Option.none ("Rank" :: ["f"])
        (ctgovServer 1001 (fun r => [Cell.num r]))).1 = .df d ∧
      d.rows.length = 1001 ∧ d.rows.Nodup := by
  refine C2_rowcount 1001 (fun r => [Cell.num r]) "a" ["f"] ["f"]
    (by decide) (by decide) (by omega) ?_
  intro r1 h1 r2 h2 heq
  simp only [List.map_cons, List.map_nil, List.cons.injEq, and_true] at heq
  have : normCell (Cell.num r1) = Cell.num r1 := by
    simp [normCell, replaceCell, joinIfList]
  rw [this] at heq
  have h2' : normCell (Cell.num r2) = Cell.num r2 := by
    simp [normCell, replaceCell, joinIfList]
  rw [h2'] at heq
  simp only [Cell.num.injEq, Nat.cast_inj] at heq
  exact heq

/-- C2 counterexample.  A run over a duplicate-free database of 1001
distinct study rows (more than one page) returns a table with 1000 rows,
not 1001: the missing-value normalization collapses the raw-distinct rows
`[nan]` and `[""]` into the same row before duplicates are dropped. -/
theorem C2_counterexample :
    ((List.range' 1 1001).map cexStudies).Nodup ∧ 1000 < 1001 ∧
    (∃ d, (query_ctgov_api "q" ["f"] Option.none ("Rank" :: ["f"])
        (ctgovServer 1001 cexStudies)).1 = .df d ∧
      d.rows.length = 1000 ∧ d.rows.length ≠ 1001) := by
  refine ⟨?_, by omega, ?_⟩
  · refine List.Nodup.map_on ?_ (List.nodup_range' 1 1001)
    intro r1 h1 r2 h2 heq
    rw [List.mem_range'_1] at h1 h2
    unfold cexStudies at heq
    split_ifs at heq <;> simp_all
  · obtain ⟨d, h1, h2, h3, h4⟩ := run_ctgov_count 1001 cexStudies "q" ["f"]
      ["f"] (by decide) (by decide) (by omega)
    have hg2 : (cexStudies 2).map normCell = [Cell.str ""] := by decide
    have hg1 : (cexStudies 1).map normCell = [Cell.str ""] := by decide
    have himg : (Finset.Icc 1 1001).image
        (fun r => (cexStudies r).map normCell) =
        (Finset.Icc 2 1001).image (fun r => (cexStudies r).map normCell) := by
      ext y
      simp only [Finset.mem_image, Finset.mem_Icc]
      constructor
      · rintro ⟨r, ⟨hr1, hr2⟩, hy⟩
        by_cases hr : r = 1
        · refine ⟨2, by omega, ?_⟩
          rw [hg2, ← hy, hr, hg1]
        · exact ⟨r, by omega, hy⟩
      · rintro ⟨r, ⟨hr1, hr2⟩, hy⟩
        exact ⟨r, by omega, hy⟩
    have hinj : Set.InjOn (fun r => (cexStudies r).map normCell)
        ↑(Finset.Icc 2 1001) := by
      intro a ha b hb hab
      simp only [Finset.coe_Icc, Set.mem_Icc] at ha hb
      simp only [cexStudies] at hab
      split_ifs at hab <;> simp_all [normCell, replaceCell, joinIfList]
    have hcard : ((Finset.Icc 1 1001).image
        (fun r => (cexStudies r).map normCell)).card = 1000 := by
      rw [himg, Finset.card_image_of_injOn hinj, Nat.card_Icc]
    refine ⟨d, h1, ?_, ?_⟩
    · rw [h4, hcard]
    · rw [h4, hcard]
      omega

end DHTermSearch
